import Mathlib

/-!
Verification of the hybrid Graph-RAG retrieval pipeline.

This file gives a shallow embedding of the core components of the
repository and proves (or refutes) the stated properties about them:

- `HybridRetriever` (src/graph_rag/retrievers/hybrid_retriever.py):
  `retrieve`, `vector_search`, `extract_query_entities`, `graph_traversal`,
  `expand_from_vector_results`, `rerank_results`;
- `KnowledgeGraphBuilder` (src/graph_rag/graph_builder.py):
  `build_from_extractions`, `create_or_get_entity`, `create_relationship`;
- `OllamaHandler.extract_entities` (src/graph_rag/handlers/ollama_handler.py);
- `LlamaEmbedding.embed_texts` (src/graph_rag/handlers/pinecone_handler.py);
- `DocumentChunker.chunk_text` (src/graph_rag/extractors/entity_extractor.py).

External collaborators (the Neo4j driver, the Pinecone index, the LLM, the
HTTP embedding endpoint and the standard-library JSON decoder) are modelled
as oracles: arbitrary total functions, with `Except`/`Option` results where
the Python call can raise.  Python machine floats are modelled as rationals,
Python strings as Lean strings operated on through their character lists
(the dedicated helpers below mirror the Python `str` methods used by the
code, including the negative-index semantics of slicing and `rfind`).
-/

set_option maxRecDepth 4000

namespace GraphRAG

/-! ## Python string primitives -/

/-- Trim leading and trailing whitespace from a character list:
the model of Python `str.strip()` with no arguments. -/
def stripChars (s : List Char) : List Char :=
  ((s.dropWhile Char.isWhitespace).reverse.dropWhile Char.isWhitespace).reverse

/-- Model of Python `str.strip()`. -/
def py_strip (s : String) : String := ⟨stripChars s.data⟩

/-- Model of Python `str.lower()` (ASCII case mapping). -/
def py_lower (s : String) : String := ⟨s.data.map Char.toLower⟩

/-- Model of Python `str.upper()` (ASCII case mapping). -/
def py_upper (s : String) : String := ⟨s.data.map Char.toUpper⟩

/-- Helper for `py_split`: accumulate the current word (reversed) while
scanning; whitespace closes the current word, empty words are dropped. -/
def splitWSGo (acc : List Char) : List Char → List (List Char)
  | [] => if acc = [] then [] else [acc.reverse]
  | c :: cs =>
    if c.isWhitespace then
      (if acc = [] then splitWSGo [] cs else acc.reverse :: splitWSGo [] cs)
    else splitWSGo (c :: acc) cs

/-- Model of Python `str.split()` with no arguments: split on runs of
whitespace and drop empty fields. -/
def py_split (s : String) : List String := (splitWSGo [] s.data).map String.mk

/-- Model of Python `str.replace(" ", "_")` (single-character pattern). -/
def py_replace_space_underscore (s : String) : String :=
  ⟨s.data.map (fun c => if c = ' ' then '_' else c)⟩

/-- Python truthiness of an optional string value (`None` and the empty
string are falsy). -/
def truthyOpt : Option String → Bool
  | none => false
  | some s => s ≠ ""

/-! ## Data model of retrieval results

`VectorRes` models one Pinecone match as used by the retriever: its
similarity `score` and the `text` field of its metadata; `tag` stands for
the remaining metadata, which the retriever never inspects but which keeps
distinct records distinct.  `GraphRes` models one record returned by
`Neo4jHandler.get_related_entities`: the node `id` and the list of
relationship types on the path that reached it (again with an opaque `tag`
for the unread properties). -/

structure VectorRes where
  score : ℚ
  text : String
  tag : Nat
deriving DecidableEq, Repr

structure GraphRes where
  id : String
  relationship_path : List String
  tag : Nat
deriving DecidableEq, Repr

/-- One match of `Neo4jHandler.search_entities`, reduced to the only field
the retriever reads: `match["properties"].get("name", "")` (so a missing
name is modelled by the empty string, exactly as the `.get` default). -/
structure SearchMatch where
  name : String
deriving DecidableEq, Repr

/-- One result of `Neo4jHandler.find_entity_by_name`, reduced to the only
field the retriever reads (`entity["id"]`). -/
structure FoundEntity where
  id : String
deriving DecidableEq, Repr

/-- The oracle bundle seen by `HybridRetriever`: the responses of the
vector store and of the entity store.  `search_by_text` may raise (its
Python counterpart performs network calls), which `vector_search` catches;
the Neo4j calls made by the retriever are used without a surrounding
`try`, so their responses are modelled as plain values. -/
structure Stores where
  search_by_text : String → Nat → Except Unit (List VectorRes)
  search_entities : String → Nat → List SearchMatch
  find_entity_by_name : String → String → Option FoundEntity
  get_related_entities : String → Nat → List GraphRes

/-! ## HybridRetriever -/

/-- `HybridRetriever._vector_search`: query the vector store, degrading to
the empty list on any exception. -/
def vector_search (S : Stores) (query : String) (top_k : Nat) : List VectorRes :=
  match S.search_by_text query top_k with
  | .ok results => results
  | .error _ => []

/-- Deduplicate entity names case-insensitively, preserving first-seen
order (the loop at the end of `_extract_query_entities`). -/
def dedupCaseInsensitive (seen : List String) : List String → List String
  | [] => []
  | e :: rest =>
    if py_lower e ∈ seen then dedupCaseInsensitive seen rest
    else e :: dedupCaseInsensitive (py_lower e :: seen) rest

/-- `HybridRetriever._extract_query_entities`: lowercase and split the
query, skip terms shorter than 3 characters, collect the non-empty names
of up to 3 entity-store matches per term, and deduplicate
case-insensitively preserving order. -/
def extract_query_entities (S : Stores) (query : String) : List String :=
  let query_terms := py_split (py_lower query)
  let entities := query_terms.foldl (fun acc term =>
    if term.length < 3 then acc
    else acc ++ ((S.search_entities term 3).map SearchMatch.name).filter (· ≠ "")) []
  dedupCaseInsensitive [] entities

/-- The fixed fallback list of entity types tried by `_graph_traversal`
when the generic "Entity" lookup fails. -/
def fallbackTypes : List String := ["Crop", "Disease", "Pest", "Technique", "Chemical"]

/-- Entity resolution inside `_graph_traversal`: try the generic type
first, then each fallback type, keeping the first hit. -/
def resolve_entity (S : Stores) (name : String) : Option FoundEntity :=
  match S.find_entity_by_name "Entity" name with
  | some e => some e
  | none =>
      fallbackTypes.foldl (fun acc t =>
        match acc with
        | some e => some e
        | none => S.find_entity_by_name t name) none

/-- The inner loop of `_graph_traversal` over one neighbourhood: add each
unseen id, and break as soon as the accumulated list reaches `top_k`
(the length test runs after every element, added or not). -/
def travInner (top_k : Nat) (seen : List String) (acc : List GraphRes) :
    List GraphRes → List String × List GraphRes
  | [] => (seen, acc)
  | r :: rs =>
    let seen2 := if r.id ∈ seen then seen else r.id :: seen
    let acc2 := if r.id ∈ seen then acc else acc ++ [r]
    if top_k ≤ acc2.length then (seen2, acc2) else travInner top_k seen2 acc2 rs

/-- The outer loop of `_graph_traversal` over the seed entity names. -/
def travOuter (S : Stores) (top_k max_hops : Nat) (seen : List String)
    (acc : List GraphRes) : List String → List GraphRes
  | [] => acc
  | name :: rest =>
    match resolve_entity S name with
    | none => travOuter S top_k max_hops seen acc rest
    | some e =>
      let p := travInner top_k seen acc (S.get_related_entities e.id max_hops)
      if top_k ≤ p.2.length then p.2 else travOuter S top_k max_hops p.1 p.2 rest

/-- `HybridRetriever._graph_traversal`: traverse from each seed name,
deduplicating by node id, short-circuiting at `top_k`, and truncating the
final list to `top_k`. -/
def graph_traversal (S : Stores) (entity_names : List String) (top_k max_hops : Nat) :
    List GraphRes :=
  (travOuter S top_k max_hops [] [] entity_names).take top_k

/-- Capitalised-token harvesting in `_expand_from_vector_results`: split
each of the top 3 vector hits' metadata text on whitespace and keep the
words whose first character is uppercase. -/
def entity_candidates (vector_results : List VectorRes) : List String :=
  (vector_results.take 3).flatMap (fun result =>
    (py_split result.text).filter (fun word =>
      word ≠ "" && (match word.data with | [] => false | c :: _ => c.isUpper)))

/-- The merge loop of `_expand_from_vector_results`: append new results
whose id is unseen, breaking once the merged list reaches `top_k`. -/
def mergeLoop (top_k : Nat) (ids : List String) (merged : List GraphRes) :
    List GraphRes → List GraphRes
  | [] => merged
  | r :: rs =>
    let ids2 := if r.id ∈ ids then ids else r.id :: ids
    let merged2 := if r.id ∈ ids then merged else merged ++ [r]
    if top_k ≤ merged2.length then merged2 else mergeLoop top_k ids2 merged2 rs

/-- `HybridRetriever._expand_from_vector_results`: harvest capitalised
tokens from the top 3 vector hits, traverse from them, and merge with the
existing graph results deduplicating by id, existing results first. -/
def expand_from_vector_results (S : Stores) (vector_results : List VectorRes)
    (existing_graph_results : List GraphRes) (top_k max_hops : Nat) : List GraphRes :=
  let new_results := graph_traversal S (entity_candidates vector_results) top_k max_hops
  (mergeLoop top_k (existing_graph_results.map GraphRes.id) existing_graph_results
    new_results).take top_k

/-- `HybridRetriever.retrieve`: vector search, query-entity extraction,
graph traversal, and the sparse-result expansion that runs exactly when
the traversal produced fewer than `top_k_graph // 2` results (Python floor
division). -/
def retrieve (S : Stores) (query : String) (top_k_vector top_k_graph max_hops : Nat) :
    List VectorRes × List GraphRes :=
  let vector_results := vector_search S query top_k_vector
  let query_entities := extract_query_entities S query
  let graph_results := graph_traversal S query_entities top_k_graph max_hops
  let graph_results2 :=
    if graph_results.length < top_k_graph / 2 then
      expand_from_vector_results S vector_results graph_results top_k_graph max_hops
    else graph_results
  (vector_results, graph_results2)

/-! ## Reranking (`HybridRetriever.rerank_results`)

The Python code mutates each result dict in place, adding
`normalized_score`, `source` and `final_score` keys, concatenates the two
lists (vector results first) and sorts by `final_score` descending with
Python's stable sort.  An output element is modelled as the original
record together with its two added scores (the `source` tag is carried by
the constructor). -/

inductive Ranked where
  | vec (v : VectorRes) (normalized_score final_score : ℚ)
  | gr (g : GraphRes) (normalized_score final_score : ℚ)
deriving DecidableEq, Repr

/-- The `final_score` key read back by the sort. -/
def finalScore : Ranked → ℚ
  | .vec _ _ f => f
  | .gr _ _ f => f

/-- Strip the scores added by reranking, recovering the input record. -/
def stripRanked : Ranked → VectorRes ⊕ GraphRes
  | .vec v _ _ => Sum.inl v
  | .gr g _ _ => Sum.inr g

def isVecRanked : Ranked → Bool
  | .vec _ _ _ => true
  | .gr _ _ _ => false

def isGrRanked : Ranked → Bool
  | .vec _ _ _ => false
  | .gr _ _ _ => true

/-- `max(r.get("score", 0) for r in vector_results)` (only evaluated when
the list is nonempty; the `[]` case is an unused placeholder). -/
def maxVectorScore (vector_results : List VectorRes) : ℚ :=
  match vector_results.map VectorRes.score with
  | [] => 0
  | s :: ss => ss.foldl max s

/-- Normalised score of a vector result: `score / max` when the batch
maximum is positive, else `0`. -/
def normalizedVec (m : ℚ) (v : VectorRes) : ℚ := if 0 < m then v.score / m else 0

/-- Normalised score of a graph result: `1 / (1 + pathLength)` for a
non-empty relationship path, else the flat `0.8`. -/
def normalizedGraph (g : GraphRes) : ℚ :=
  if 0 < g.relationship_path.length then 1 / (1 + (g.relationship_path.length : ℚ))
  else 4 / 5

/-- A vector result annotated with its normalised and final scores. -/
def annotVec (m vector_weight : ℚ) (v : VectorRes) : Ranked :=
  .vec v (normalizedVec m v) (normalizedVec m v * vector_weight)

/-- A graph result annotated with its normalised and final scores. -/
def annotGraph (graph_weight : ℚ) (g : GraphRes) : Ranked :=
  .gr g (normalizedGraph g) (normalizedGraph g * graph_weight)

/-- Stable descending sort by a rational key: the model of Python
`list.sort(key=..., reverse=True)` (Timsort is stable; insertion sort with
this comparator computes the same, unique, stable descending
arrangement). -/
def stable_desc_sort {α : Type} (key : α → ℚ) (l : List α) : List α :=
  l.insertionSort (fun a b => key b ≤ key a)

/-- `HybridRetriever.rerank_results`. -/
def rerank_results (vector_results : List VectorRes) (graph_results : List GraphRes)
    (vector_weight : ℚ) : List Ranked :=
  let graph_weight := 1 - vector_weight
  let m := maxVectorScore vector_results
  let all_results :=
    vector_results.map (annotVec m vector_weight) ++
      graph_results.map (annotGraph graph_weight)
  stable_desc_sort finalScore all_results

/-! ## KnowledgeGraphBuilder (src/graph_rag/graph_builder.py)

The session cache is the builder's `entity_cache` dict: keys are
lower-cased stripped entity names, values are the ids returned by the
store — which may be Python `None` (so the stored value is an
`Option String`).  The Neo4j calls made by the builder may raise; they are
modelled as `Except`-valued oracles.  The `get_or_create_entity` oracle
receives the entity type, name and description (the remaining properties
are never read back by the builder). -/

structure EntityIn where
  name : Option String
  type : Option String
  description : Option String
deriving DecidableEq, Repr

structure RelIn where
  fromName : Option String
  toName : Option String
  type : Option String
  source_chunk : Option String
deriving DecidableEq, Repr

structure Extraction where
  entities : List EntityIn
  relationships : List RelIn
deriving DecidableEq, Repr

structure BuilderStore where
  get_or_create_entity : String → String → String → Except Unit (Option String)
  create_relationship : String → String → String → Option String → Except Unit Bool

/-- The builder's session cache (`entity_cache`): an insertion-at-front
association list queried like a Python dict. -/
def Cache : Type := List (String × Option String)

structure BuildStats where
  entities_created : Nat
  entities_found : Nat
  relationships_created : Nat
  errors : Nat
deriving DecidableEq, Repr

def initStats : BuildStats :=
  { entities_created := 0, entities_found := 0, relationships_created := 0, errors := 0 }

/-- `KnowledgeGraphBuilder._create_or_get_entity`: strip the name, return
`None` for an empty name, hit the cache keyed by the lower-cased name, or
call the store and cache whatever id it returned (the cache is updated
only when the store call did not raise). -/
def create_or_get_entity (B : BuilderStore) (cache : Cache) (entity : EntityIn) :
    Except Unit (Option String × Cache) :=
  let name := py_strip (entity.name.getD "")
  let entity_type := py_strip (entity.type.getD "Entity")
  let description := entity.description.getD ""
  if name = "" then .ok (none, cache)
  else
    let cache_key := py_lower name
    match List.lookup cache_key cache with
    | some cached => .ok (cached, cache)
    | none =>
      match B.get_or_create_entity entity_type name description with
      | .error e => .error e
      | .ok entity_id => .ok (entity_id, (cache_key, entity_id) :: cache)

/-- One iteration of the first pass of `build_from_extractions`: process
one entity inside `try`, then — when a truthy id came back — count it as
"found" exactly when `entity.get("name", "").lower()` (unstripped!) is a
key of the cache at that point, i.e. after `_create_or_get_entity` already
cached it. -/
def entityStep (B : BuilderStore) (st : Cache × BuildStats) (entity : EntityIn) :
    Cache × BuildStats :=
  match create_or_get_entity B st.1 entity with
  | .error _ => (st.1, { st.2 with errors := st.2.errors + 1 })
  | .ok (entity_id, cache2) =>
    if truthyOpt entity_id then
      if (List.lookup (py_lower (entity.name.getD "")) cache2).isSome then
        (cache2, { st.2 with entities_found := st.2.entities_found + 1 })
      else
        (cache2, { st.2 with entities_created := st.2.entities_created + 1 })
    else (cache2, st.2)

/-- Pass 1 of `build_from_extractions`: create/get every entity of every
extraction, threading the cache and the stats. -/
def entityPass (B : BuilderStore) (st : Cache × BuildStats) (extractions : List Extraction) :
    Cache × BuildStats :=
  extractions.foldl (fun st ex => ex.entities.foldl (entityStep B) st) st

/-- The relationship-type normalisation of `_create_relationship`:
`relationship.get("type", "RELATED_TO").strip().upper()` followed by
`replace(" ", "_")` — note the `RELATED_TO` default applies only when the
`type` key is absent. -/
def normalized_rel_type (rel : RelIn) : String :=
  py_replace_space_underscore (py_upper (py_strip (rel.type.getD "RELATED_TO")))

/-- `KnowledgeGraphBuilder._create_relationship`: normalise the names
(strip + lower) and the type, fail fast on any falsy field, resolve both
endpoints through the cache, silently return `False` when either is
missing or empty, else call the store. -/
def create_relationship (B : BuilderStore) (cache : Cache) (rel : RelIn) :
    Except Unit Bool :=
  let from_name := py_lower (py_strip (rel.fromName.getD ""))
  let to_name := py_lower (py_strip (rel.toName.getD ""))
  let rel_type := normalized_rel_type rel
  if from_name = "" ∨ to_name = "" ∨ rel_type = "" then .ok false
  else
    match (List.lookup from_name cache).getD none, (List.lookup to_name cache).getD none with
    | some from_id, some to_id =>
      if from_id = "" ∨ to_id = "" then .ok false
      else B.create_relationship from_id to_id rel_type rel.source_chunk
    | _, _ => .ok false

/-- One iteration of the second pass of `build_from_extractions`: create
one relationship inside `try`, counting a `True` result and counting an
exception as an error. -/
def relStep (B : BuilderStore) (cache : Cache) (st : BuildStats) (rel : RelIn) : BuildStats :=
  match create_relationship B cache rel with
  | .error _ => { st with errors := st.errors + 1 }
  | .ok true => { st with relationships_created := st.relationships_created + 1 }
  | .ok false => st

/-- Pass 2 of `build_from_extractions`. -/
def relPass (B : BuilderStore) (cache : Cache) (st : BuildStats)
    (extractions : List Extraction) : BuildStats :=
  extractions.foldl (fun st ex => ex.relationships.foldl (relStep B cache) st) st

/-- `KnowledgeGraphBuilder.build_from_extractions` on a fresh builder
(empty session cache): entity pass, then relationship pass. -/
def build_from_extractions (B : BuilderStore) (extractions : List Extraction) : BuildStats :=
  let p := entityPass B (([] : Cache), initStats) extractions
  relPass B p.1 p.2 extractions

/-! ## OllamaHandler.extract_entities and the JSON boundary

`extract_entities` takes the substring from the first opening brace to the
last closing brace of the LLM response and hands it to `json.loads` inside
a `try` that maps every failure to the empty extraction structure.  The
standard-library decoder is modelled by `json_loads` below, a total
recursive-descent parser returning `none` where Python would raise
(number tokens are kept as raw lexemes since the pipeline never reads
them; unicode escapes are not modelled). -/

inductive Json where
  | null
  | boolean (b : Bool)
  | num (raw : String)
  | str (s : String)
  | arr (xs : List Json)
  | obj (kvs : List (String × Json))

/-- JSON insignificant whitespace. -/
def skipWs : List Char → List Char
  | [] => []
  | c :: cs =>
    if c = ' ' ∨ c = '\t' ∨ c = '\n' ∨ c = '\r' then skipWs cs else c :: cs

/-- Decode one character escape of a JSON string literal. -/
def escChar (e : Char) : Option Char :=
  if e = '"' then some '"'
  else if e = '\\' then some '\\'
  else if e = '/' then some '/'
  else if e = 'n' then some '\n'
  else if e = 't' then some '\t'
  else if e = 'r' then some '\r'
  else if e = 'b' then some (Char.ofNat 8)
  else if e = 'f' then some (Char.ofNat 12)
  else none

/-- Parse the body of a JSON string literal (opening quote already
consumed), returning the decoded content and the remainder. -/
def parseStrChars : Nat → List Char → Option (List Char × List Char)
  | 0, _ => none
  | _, [] => none
  | fuel + 1, c :: cs =>
    if c = '"' then some ([], cs)
    else if c = '\\' then
      match cs with
      | [] => none
      | e :: cs2 =>
        match escChar e with
        | none => none
        | some d =>
          match parseStrChars fuel cs2 with
          | none => none
          | some (content, rest) => some (d :: content, rest)
    else
      match parseStrChars fuel cs with
      | none => none
      | some (content, rest) => some (c :: content, rest)

/-- Characters that may occur in a JSON number lexeme. -/
def isNumChar (c : Char) : Bool :=
  c.isDigit || c = '-' || c = '+' || c = '.' || c = 'e' || c = 'E'

mutual

/-- Parse one JSON value. -/
def parseVal : Nat → List Char → Option (Json × List Char)
  | 0, _ => none
  | fuel + 1, cs =>
    match skipWs cs with
    | [] => none
    | c :: rest =>
      if c = '\x7b' then
        match skipWs rest with
        | '\x7d' :: r2 => some (.obj [], r2)
        | r2 =>
          match parseMembers fuel r2 with
          | none => none
          | some (kvs, r3) => some (.obj kvs, r3)
      else if c = '[' then
        match skipWs rest with
        | ']' :: r2 => some (.arr [], r2)
        | r2 =>
          match parseItems fuel r2 with
          | none => none
          | some (xs, r3) => some (.arr xs, r3)
      else if c = '"' then
        match parseStrChars (rest.length + 1) rest with
        | none => none
        | some (content, r2) => some (.str (String.mk content), r2)
      else if c = 't' ∧ rest.take 3 = ['r', 'u', 'e'] then
        some (.boolean true, rest.drop 3)
      else if c = 'f' ∧ rest.take 4 = ['a', 'l', 's', 'e'] then
        some (.boolean false, rest.drop 4)
      else if c = 'n' ∧ rest.take 3 = ['u', 'l', 'l'] then
        some (.null, rest.drop 3)
      else if c = '-' ∨ c.isDigit then
        let tok := (c :: rest).takeWhile isNumChar
        some (.num (String.mk tok), (c :: rest).dropWhile isNumChar)
      else none

/-- Parse a non-empty comma-separated member list of a JSON object,
consuming the closing brace. -/
def parseMembers : Nat → List Char → Option (List (String × Json) × List Char)
  | 0, _ => none
  | fuel + 1, cs =>
    match skipWs cs with
    | '"' :: rest =>
      match parseStrChars (rest.length + 1) rest with
      | none => none
      | some (key, r2) =>
        match skipWs r2 with
        | ':' :: r3 =>
          match parseVal fuel r3 with
          | none => none
          | some (v, r4) =>
            match skipWs r4 with
            | ',' :: r5 =>
              match parseMembers fuel r5 with
              | none => none
              | some (kvs, r6) => some ((String.mk key, v) :: kvs, r6)
            | '\x7d' :: r5 => some ([(String.mk key, v)], r5)
            | _ => none
        | _ => none
    | _ => none

/-- Parse a non-empty comma-separated item list of a JSON array,
consuming the closing bracket. -/
def parseItems : Nat → List Char → Option (List Json × List Char)
  | 0, _ => none
  | fuel + 1, cs =>
    match parseVal fuel cs with
    | none => none
    | some (v, r2) =>
      match skipWs r2 with
      | ',' :: r3 =>
        match parseItems fuel r3 with
        | none => none
        | some (xs, r4) => some (v :: xs, r4)
      | ']' :: r3 => some ([v], r3)
      | _ => none

end

/-- Model of `json.loads`: parse one value and require only trailing
whitespace after it. -/
def json_loads (s : String) : Option Json :=
  match parseVal (s.data.length + 1) s.data with
  | some (j, rest) => if skipWs rest = [] then some j else none
  | none => none

/-- Index of the first occurrence of `c`, or `-1`: Python `str.find` for a
single-character needle. -/
def py_find (s : String) (c : Char) : Int :=
  match s.data.indexOf? c with
  | some i => (i : Int)
  | none => -1

/-- Helper for `py_rfind_all`: last index of `c` scanning with a running
index. -/
def lastIdxAll (c : Char) : Nat → List Char → Int → Int
  | _, [], acc => acc
  | i, x :: xs, acc => lastIdxAll c (i + 1) xs (if x = c then (i : Int) else acc)

/-- Index of the last occurrence of `c`, or `-1`: Python `str.rfind` for a
single-character needle without range arguments. -/
def py_rfind_all (s : String) (c : Char) : Int :=
  lastIdxAll c 0 s.data (-1)

/-- Python slice `s[i:j]` for `0 ≤ i ≤ j ≤ len(s)` (the only case
`extract_entities` exercises, both indices being found offsets). -/
def py_substring (s : String) (i j : Int) : String :=
  ⟨(s.data.take j.toNat).drop i.toNat⟩

/-- The structure returned by `extract_entities` on any failure. -/
def emptyExtraction : Json :=
  .obj [("entities", .arr []), ("relationships", .arr [])]

/-- The brace-delimited candidate substring of a response: from the first
opening brace to the last closing brace inclusive. -/
def braceSubstring (response : String) : String :=
  py_substring response (py_find response '\x7b') (py_rfind_all response '\x7d' + 1)

/-- `OllamaHandler.extract_entities`, starting from the LLM `response`
string (the network call that produced it is outside the model; on a
network error `generate` returns `""`, which takes the no-braces branch
here).  Returns the parsed JSON of the brace-delimited substring, or the
empty structure when the braces are absent or parsing fails. -/
def extract_entities (response : String) : Json :=
  let s := py_find response '\x7b'
  let e := py_rfind_all response '\x7d' + 1
  if 0 ≤ s ∧ s < e then
    match json_loads (py_substring response s e) with
    | some j => j
    | none => emptyExtraction
  else emptyExtraction

/-! ## LlamaEmbedding.embed_texts and the Pinecone configuration -/

/-- The slice of `PineconeHandler.__init__` state the claims are about:
the configured embedding dimension.  The Python default is 1024. -/
structure PineconeHandlerConfig where
  embedding_dimension : Nat
deriving DecidableEq, Repr

/-- The default `embedding_dimension` of `PineconeHandler.__init__`. -/
def default_embedding_dimension : Nat := 1024

/-- `LlamaEmbedding.embed_texts`: the whole HTTP round-trip (request,
status check, JSON decode, field extraction) is modelled by the
`api_result` oracle, `none` standing for any exception.  On failure the
code returns one zero vector of hard-coded length 1024 per input text. -/
def embed_texts (api_result : Option (List (List ℚ))) (texts : List String) :
    List (List ℚ) :=
  match api_result with
  | some embeddings => embeddings
  | none => texts.map (fun _ => List.replicate 1024 (0 : ℚ))

/-! ## DocumentChunker.chunk_text

The sliding-window loop works with Python ints, and nothing prevents
`start = end - chunk_overlap` from going negative; `str.rfind(sub, i, j)`
and slicing then interpret negative indices relative to the end of the
string.  Both are modelled faithfully below (`normSliceIdx` is the slice
normalisation: negative indices shifted by the length and clamped to
`[0, len]`).  The `while` loop is embedded as a fuel-indexed runner whose
`none` result means the given number of iterations did not reach
`start ≥ len(text)`; the loop terminates on `text` if and only if some
fuel returns `some`. -/

/-- Python slice-notation index normalisation for a string of length `L`. -/
def normSliceIdx (L : Nat) (i : Int) : Nat :=
  if i < 0 then (i + L).toNat else min i.toNat L

/-- Helper for `py_rfind`: the largest index in `[lo, hi)` holding `c`,
as an `Int`, or the accumulator (initially `-1`). -/
def lastIdxGo (c : Char) (lo hi : Nat) : Nat → List Char → Int → Int
  | _, [], acc => acc
  | i, x :: xs, acc =>
      lastIdxGo c lo hi (i + 1) xs (if lo ≤ i ∧ i < hi ∧ x = c then (i : Int) else acc)

/-- Python `text.rfind(c, i, j)` for a single-character needle, with full
slice-notation index semantics. -/
def py_rfind (s : List Char) (c : Char) (i j : Int) : Int :=
  lastIdxGo c (normSliceIdx s.length i) (normSliceIdx s.length j) 0 s (-1)

/-- Python slice `text[i:j]` with full slice-notation index semantics. -/
def py_slice (s : List Char) (i j : Int) : List Char :=
  (s.take (normSliceIdx s.length j)).drop (normSliceIdx s.length i)

/-- The window end computed by one iteration of `chunk_text`:
`min(start + chunk_size, len(text))`, pulled back to just after the last
sentence-boundary character (`.` or newline) strictly after `start` when
the window does not already reach the end of the text. -/
def chunk_end (s : List Char) (chunk_size : Int) (start : Int) : Int :=
  let text_length : Int := s.length
  let e0 := min (start + chunk_size) text_length
  if e0 < text_length then
    let last_period := py_rfind s '.' start e0
    let last_newline := py_rfind s '\n' start e0
    let break_point := max last_period last_newline
    if break_point > start then break_point + 1 else e0
  else e0

/-- The next window start: `end - chunk_overlap`, or `len(text)` when the
window reached the end of the text. -/
def next_start (s : List Char) (chunk_size chunk_overlap : Int) (start : Int) : Int :=
  let e := chunk_end s chunk_size start
  if e < (s.length : Int) then e - chunk_overlap else (s.length : Int)

/-- The stripped chunk content of the current window. -/
def chunk_at (s : List Char) (chunk_size : Int) (start : Int) : List Char :=
  stripChars (py_slice s start (chunk_end s chunk_size start))

structure Chunk where
  id : String
  text : List Char
  start_pos : Int
  end_pos : Int
  chunk_num : Nat
deriving DecidableEq, Repr

/-- Build the chunk record appended for a non-empty window. -/
def mkChunk (doc_id : Option String) (t : List Char) (start_pos end_pos : Int)
    (chunk_num : Nat) : Chunk :=
  { id := match doc_id with
      | some d => d ++ "_chunk_" ++ toString chunk_num
      | none => "chunk_" ++ toString chunk_num,
    text := t, start_pos := start_pos, end_pos := end_pos, chunk_num := chunk_num }

/-- The `while start < text_length` loop of `chunk_text`, one fuel unit
per iteration; `none` means the fuel ran out with the loop still
running. -/
def chunk_text_loop (s : List Char) (doc_id : Option String)
    (chunk_size chunk_overlap : Int) (fuel : Nat) (start : Int) (chunk_num : Nat)
    (chunks : List Chunk) : Option (List Chunk) :=
  if start < (s.length : Int) then
    match fuel with
    | 0 => none
    | fuel' + 1 =>
      let ct := chunk_at s chunk_size start
      let chunks2 :=
        if ct = [] then chunks
        else chunks ++ [mkChunk doc_id ct start (chunk_end s chunk_size start) chunk_num]
      let chunk_num2 := if ct = [] then chunk_num else chunk_num + 1
      chunk_text_loop s doc_id chunk_size chunk_overlap fuel'
        (next_start s chunk_size chunk_overlap start) chunk_num2 chunks2
  else some chunks

/-- `DocumentChunker.chunk_text`, run for `fuel` loop iterations from the
initial state. -/
def chunk_text (s : List Char) (doc_id : Option String)
    (chunk_size chunk_overlap : Int) (fuel : Nat) : Option (List Chunk) :=
  chunk_text_loop s doc_id chunk_size chunk_overlap fuel 0 0 []

/-- A 1052-character text on which `chunk_text` with the default
configuration (chunk_size 1000, chunk_overlap 200) never terminates: its
only sentence boundary is the period at index 250, so the first window
[0, 1000) is pulled back to end 251 and the next start is 51; from then
on every window [51, 1051) is pulled back to the same end 251, and
`start = 251 - 200 = 51` repeats forever. -/
def badText : List Char := List.replicate 250 'x' ++ '.' :: List.replicate 801 'y'

/-! ## Concrete instances used by witnesses and counterexamples -/

/-- A builder store whose calls always succeed: entity creation returns a
fixed id, relationship creation returns `True`. -/
def alwaysOkStore : BuilderStore :=
  { get_or_create_entity := fun _ _ _ => .ok (some "id-wheat"),
    create_relationship := fun _ _ _ _ => .ok true }

/-- A session cache holding resolved ids for "rust" and "wheat". -/
def cacheRW : Cache := [("rust", some "r1"), ("wheat", some "w1")]

/-- A small store world: the query term "alpha" matches entity `Alpha`
(node `a`, two neighbours `n1`, `n2`), the single vector hit's text is
"Beta", and `Beta` resolves to node `b` with one neighbour `n3`. -/
def S0 : Stores :=
  { search_by_text := fun _ _ => .ok [⟨1, "Beta", 0⟩],
    search_entities := fun term _ => if term = "alpha" then [⟨"Alpha"⟩] else [],
    find_entity_by_name := fun t name =>
      if t = "Entity" ∧ name = "Alpha" then some ⟨"a"⟩
      else if t = "Entity" ∧ name = "Beta" then some ⟨"b"⟩
      else none,
    get_related_entities := fun id _ =>
      if id = "a" then [⟨"n1", ["R"], 0⟩, ⟨"n2", ["R"], 0⟩]
      else if id = "b" then [⟨"n3", ["R"], 0⟩] else [] }

/-- Two vector results with positive scores, out of score order. -/
def V2 : List VectorRes := [⟨1, "", 0⟩, ⟨2, "", 1⟩]

/-- Two graph results: one reached over a 2-edge path, one direct. -/
def G2 : List GraphRes := [⟨"g1", ["R", "S"], 0⟩, ⟨"g2", [], 0⟩]

/-! # Theorems -/

/-! ## C8: the embedding fallback vector and the configured dimension -/

/-- C8 (amended): when the external embedding call fails, `embed_texts`
returns (never raises) one deterministic fallback vector per input text,
each of the fixed length 1024 — which coincides with the default
configured dimension of `PineconeHandler`, but not with a non-default
one. -/
theorem embed_texts_fallback_fixed_1024 (texts : List String) :
    (embed_texts none texts).length = texts.length ∧
      (embed_texts none texts).all
        (fun v => v.length == default_embedding_dimension) = true := by
  constructor
  · simp [embed_texts]
  · simp only [embed_texts, List.all_eq_true]
    intro v hv
    rcases List.mem_map.mp hv with ⟨t, _, rfl⟩
    simp [default_embedding_dimension]

/-- C8 (counterexample): a `PineconeHandler` configured with
`embedding_dimension = 512` still receives fallback vectors of length
1024, refuting the claim that the fallback length always equals the
configured dimension. -/
theorem embed_texts_fallback_wrong_dimension_cex :
    ∃ v ∈ embed_texts none ["drought"],
      v.length ≠ (PineconeHandlerConfig.mk 512).embedding_dimension := by
  refine ⟨List.replicate 1024 (0 : ℚ), ?_, ?_⟩
  · simp [embed_texts]
  · simp

/-! ## C4: "found" vs "created" counting in the entity pass -/

/-- C4 (code evaluation at the failing input): on a fresh builder with an
empty session cache and a store that succeeds, processing the single
fresh entity "Wheat" increments `entities_found`, not `entities_created`:
the membership test runs against the cache after `_create_or_get_entity`
has already inserted the name, so a fresh name is miscounted as found. -/
theorem build_counts_fresh_entity_as_found :
    build_from_extractions alwaysOkStore
        [⟨[⟨some "Wheat", some "Crop", none⟩], []⟩] =
      { entities_created := 0, entities_found := 1,
        relationships_created := 0, errors := 0 } := by
  decide

/-! ## C6: unresolved relationship endpoints are a silent skip -/

/-- C6: a relationship whose `from` or `to` name does not resolve to a
truthy id in the session cache makes `_create_relationship` return
`False` without calling the store, so the relationship-pass step leaves
the statistics unchanged (neither `relationships_created` nor `errors`
moves), and the pass continues over the remaining relationships exactly
as if the skipped one were absent. -/
theorem unresolved_relationship_is_silent_skip
    (B : BuilderStore) (cache : Cache) (st : BuildStats) (rel : RelIn)
    (pre post : List RelIn)
    (h : truthyOpt ((List.lookup (py_lower (py_strip (rel.fromName.getD ""))) cache).getD none) = false
       ∨ truthyOpt ((List.lookup (py_lower (py_strip (rel.toName.getD ""))) cache).getD none) = false) :
    create_relationship B cache rel = .ok false ∧
      relStep B cache st rel = st ∧
      (pre ++ rel :: post).foldl (relStep B cache) st =
        (pre ++ post).foldl (relStep B cache) st := by
  have hmain : create_relationship B cache rel = .ok false := by
    unfold create_relationship
    by_cases hg : py_lower (py_strip (rel.fromName.getD "")) = "" ∨
        py_lower (py_strip (rel.toName.getD "")) = "" ∨ normalized_rel_type rel = ""
    · simp only [hg, if_true]
    · simp only [hg, if_false]
      rcases hfrom : (List.lookup (py_lower (py_strip (rel.fromName.getD ""))) cache).getD none with
        _ | from_id
      · rfl
      · rcases hto : (List.lookup (py_lower (py_strip (rel.toName.getD ""))) cache).getD none with
          _ | to_id
        · rfl
        · rcases h with h | h
          · rw [hfrom] at h
            simp only [truthyOpt, decide_eq_false_iff_not, not_not] at h
            simp [h]
          · rw [hto] at h
            simp only [truthyOpt, decide_eq_false_iff_not, not_not] at h
            simp [h]
  have hstep : ∀ st' : BuildStats, relStep B cache st' rel = st' := by
    intro st'
    unfold relStep
    rw [hmain]
  refine ⟨hmain, hstep st, ?_⟩
  simp [List.foldl_append, hstep]

/-- C6 (witness): with a cache resolving only "wheat", the relationship
"Rust affects crop Wheat" is silently skipped and a surrounding pass is
unaffected by its presence. -/
theorem unresolved_relationship_is_silent_skip_witness :
    (truthyOpt ((List.lookup (py_lower (py_strip ((some "Rust" : Option String).getD "")))
          [(("wheat" : String), some "w1")]).getD none) = false
      ∨ truthyOpt ((List.lookup (py_lower (py_strip ((some "Wheat" : Option String).getD "")))
          [(("wheat" : String), some "w1")]).getD none) = false) ∧
    (create_relationship alwaysOkStore [("wheat", some "w1")]
        ⟨some "Rust", some "Wheat", some "affects crop", none⟩ = .ok false ∧
      relStep alwaysOkStore [("wheat", some "w1")] initStats
          ⟨some "Rust", some "Wheat", some "affects crop", none⟩ = initStats ∧
      ([] ++ (⟨some "Rust", some "Wheat", some "affects crop", none⟩ : RelIn) ::
            [(⟨some "Wheat", some "Wheat", some "self", none⟩ : RelIn)]).foldl
          (relStep alwaysOkStore [("wheat", some "w1")]) initStats =
        ([] ++ [(⟨some "Wheat", some "Wheat", some "self", none⟩ : RelIn)]).foldl
          (relStep alwaysOkStore [("wheat", some "w1")]) initStats) :=
  ⟨Or.inl (by decide),
    unresolved_relationship_is_silent_skip alwaysOkStore [("wheat", some "w1")] initStats
      ⟨some "Rust", some "Wheat", some "affects crop", none⟩ []
      [⟨some "Wheat", some "Wheat", some "self", none⟩] (Or.inl (by decide))⟩

/-! ## C5: relationship-type normalisation -/

/-- C5 (amended): when both endpoints resolve to truthy ids, the
relationship is stored under the input type normalised by strip, then
uppercase, then spaces to underscores ("affects crop" becomes
AFFECTS_CROP); a missing `type` key falls back to RELATED_TO; but a
present, empty (or whitespace-only) type string makes the whole
normalised type empty and the relationship is then skipped (`False`),
not stored as RELATED_TO — and no minimum length beyond non-emptiness is
ever checked. -/
theorem create_relationship_type_normalization
    (B : BuilderStore) (cache : Cache) (rel : RelIn) (from_id to_id : String)
    (h1 : py_lower (py_strip (rel.fromName.getD "")) ≠ "")
    (h2 : py_lower (py_strip (rel.toName.getD "")) ≠ "")
    (h3 : (List.lookup (py_lower (py_strip (rel.fromName.getD ""))) cache).getD none
            = some from_id)
    (h4 : from_id ≠ "")
    (h5 : (List.lookup (py_lower (py_strip (rel.toName.getD ""))) cache).getD none
            = some to_id)
    (h6 : to_id ≠ "") :
    create_relationship B cache rel =
        (if normalized_rel_type rel = "" then .ok false
         else B.create_relationship from_id to_id (normalized_rel_type rel) rel.source_chunk) ∧
      (rel.type = none → normalized_rel_type rel = "RELATED_TO") ∧
      normalized_rel_type ⟨none, none, some "affects crop", none⟩ = "AFFECTS_CROP" := by
  refine ⟨?_, ?_, by decide⟩
  · unfold create_relationship
    by_cases ht : normalized_rel_type rel = ""
    · rw [if_pos (Or.inr (Or.inr ht)), if_pos ht]
    · rw [if_neg (by simp [h1, h2, ht]), h3, h5]
      show (if from_id = "" ∨ to_id = "" then Except.ok false
            else B.create_relationship from_id to_id (normalized_rel_type rel) rel.source_chunk) = _
      rw [if_neg (by simp [h4, h6]), if_neg ht]
  · intro hnone
    simp only [normalized_rel_type, hnone, Option.getD_none]
    decide

/-- C5 (witness): a concrete instantiation — both endpoints of
"Rust affects crop Wheat" resolve in the cache, and the store receives
the normalised type AFFECTS_CROP. -/
theorem create_relationship_type_normalization_witness :
    (py_lower (py_strip ((some "Rust" : Option String).getD "")) ≠ "" ∧
      py_lower (py_strip ((some "Wheat" : Option String).getD "")) ≠ "" ∧
      (List.lookup (py_lower (py_strip ((some "Rust" : Option String).getD ""))) cacheRW).getD none
          = some "r1" ∧
      ("r1" : String) ≠ "" ∧
      (List.lookup (py_lower (py_strip ((some "Wheat" : Option String).getD ""))) cacheRW).getD none
          = some "w1" ∧
      ("w1" : String) ≠ "") ∧
    (create_relationship alwaysOkStore cacheRW ⟨some "Rust", some "Wheat", some "affects crop", none⟩ =
        (if normalized_rel_type ⟨some "Rust", some "Wheat", some "affects crop", none⟩ = ""
         then .ok false
         else alwaysOkStore.create_relationship "r1" "w1"
            (normalized_rel_type ⟨some "Rust", some "Wheat", some "affects crop", none⟩) none) ∧
      ((⟨some "Rust", some "Wheat", some "affects crop", none⟩ : RelIn).type = none →
        normalized_rel_type ⟨some "Rust", some "Wheat", some "affects crop", none⟩ = "RELATED_TO") ∧
      normalized_rel_type ⟨none, none, some "affects crop", none⟩ = "AFFECTS_CROP") :=
  ⟨⟨by decide, by decide, by decide, by decide, by decide, by decide⟩,
    create_relationship_type_normalization alwaysOkStore cacheRW
      ⟨some "Rust", some "Wheat", some "affects crop", none⟩ "r1" "w1"
      (by decide) (by decide) (by decide) (by decide) (by decide) (by decide)⟩

/-- C5 (counterexample): a relationship carrying a present-but-empty
`type` string, with both endpoints resolvable and a store that would
succeed, is dropped (`False`) instead of being created under the claimed
RELATED_TO fallback (which, had it run, would have returned `True`). -/
theorem create_relationship_empty_type_dropped_cex :
    create_relationship alwaysOkStore cacheRW ⟨some "Rust", some "Wheat", some "", none⟩ =
        .ok false ∧
      alwaysOkStore.create_relationship "r1" "w1" "RELATED_TO" none = .ok true := by
  exact ⟨rfl, rfl⟩

/-! ## C3: the sparse-result expansion trigger -/

/-- C3 (amended): `retrieve` runs the sparse-result expansion if and only
if the step-3 graph result count is strictly below the Python floor
division `top_k_graph // 2` — equivalently, iff
`2 * (count + 1) ≤ top_k_graph`; for odd `top_k_graph` the threshold
rounds down, so a count equal to `(top_k_graph - 1) / 2` does not
trigger expansion even though it is below the real-valued half. -/
theorem retrieve_expansion_trigger_floor_division
    (S : Stores) (query : String) (top_k_vector top_k_graph max_hops : Nat) :
    (retrieve S query top_k_vector top_k_graph max_hops).2 =
      (if 2 * ((graph_traversal S (extract_query_entities S query) top_k_graph max_hops).length + 1)
            ≤ top_k_graph
       then expand_from_vector_results S (vector_search S query top_k_vector)
              (graph_traversal S (extract_query_entities S query) top_k_graph max_hops)
              top_k_graph max_hops
       else graph_traversal S (extract_query_entities S query) top_k_graph max_hops) := by
  show (if (graph_traversal S (extract_query_entities S query) top_k_graph max_hops).length
            < top_k_graph / 2
        then expand_from_vector_results S (vector_search S query top_k_vector)
              (graph_traversal S (extract_query_entities S query) top_k_graph max_hops)
              top_k_graph max_hops
        else graph_traversal S (extract_query_entities S query) top_k_graph max_hops) = _
  exact if_congr (by omega) rfl rfl

/-- C3 (counterexample): with `top_k_graph = 5` and a step-3 graph count
of 2, the count is below the real-valued half (2 < 5/2) — so the claim
says expansion must run — yet `retrieve` leaves the graph results
unexpanded, and the expansion, had it run, would have produced a
different (longer) list. -/
theorem retrieve_expansion_odd_half_cex :
    ((2 : ℚ) < (5 : ℚ) / 2) ∧
      (graph_traversal S0 (extract_query_entities S0 "alpha") 5 2).length = 2 ∧
      (retrieve S0 "alpha" 3 5 2).2 =
        graph_traversal S0 (extract_query_entities S0 "alpha") 5 2 ∧
      expand_from_vector_results S0 (vector_search S0 "alpha" 3)
          (graph_traversal S0 (extract_query_entities S0 "alpha") 5 2) 5 2 ≠
        (retrieve S0 "alpha" 3 5 2).2 := by
  refine ⟨by norm_num, by decide, by decide, by decide⟩

/-! ## Properties of the stable descending sort -/

theorem stable_desc_sort_perm {α : Type} (key : α → ℚ) (l : List α) :
    (stable_desc_sort key l).Perm l :=
  List.perm_insertionSort _ l

theorem sorted_stable_desc_sort {α : Type} (key : α → ℚ) (l : List α) :
    List.Sorted (fun a b => key b ≤ key a) (stable_desc_sort key l) :=
  @List.sorted_insertionSort α (fun a b => key b ≤ key a) _
    ⟨fun a b => le_total (key b) (key a)⟩
    ⟨fun _ _ _ h1 h2 => le_trans h2 h1⟩ l

theorem orderedInsert_eq_cons {α : Type} (key : α → ℚ) (a : α) (l : List α)
    (h : ∀ y ∈ l, key y ≤ key a) :
    List.orderedInsert (fun a b => key b ≤ key a) a l = a :: l := by
  cases l with
  | nil => rfl
  | cons y ys => exact if_pos (h y (List.mem_cons_self y ys))

theorem filter_orderedInsert {α : Type} (key : α → ℚ) (p : α → Bool) (a : α) :
    ∀ l : List α, List.Sorted (fun a b => key b ≤ key a) l →
      (List.orderedInsert (fun a b => key b ≤ key a) a l).filter p =
        if p a then List.orderedInsert (fun a b => key b ≤ key a) a (l.filter p)
        else l.filter p := by
  intro l
  induction l with
  | nil =>
    intro _
    cases hp : p a <;> simp [List.orderedInsert, hp]
  | cons x xs ih =>
    intro hl
    rw [List.sorted_cons] at hl
    by_cases hax : key x ≤ key a
    · rw [List.orderedInsert, if_pos hax]
      by_cases hp : p a = true
      · have hcons : List.orderedInsert (fun a b => key b ≤ key a) a ((x :: xs).filter p)
            = a :: (x :: xs).filter p := by
          refine orderedInsert_eq_cons key a _ (fun y hy => ?_)
          have hyx : y ∈ x :: xs := (List.mem_filter.mp hy).1
          rcases List.mem_cons.mp hyx with rfl | hyxs
          · exact hax
          · exact le_trans (hl.1 y hyxs) hax
        rw [if_pos hp, hcons, List.filter_cons, if_pos hp]
      · rw [if_neg hp, List.filter_cons, if_neg hp]
    · rw [List.orderedInsert, if_neg hax]
      simp only [List.filter_cons, ih hl.2]
      by_cases hp : p x = true <;> by_cases hpa : p a = true <;>
        simp [hp, hpa, List.orderedInsert, hax]

theorem filter_stable_desc_sort {α : Type} (key : α → ℚ) (p : α → Bool) (l : List α) :
    (stable_desc_sort key l).filter p = stable_desc_sort key (l.filter p) := by
  induction l with
  | nil => rfl
  | cons a l ih =>
    show (List.orderedInsert _ a (stable_desc_sort key l)).filter p = _
    rw [filter_orderedInsert key p a _ (sorted_stable_desc_sort key l), ih, List.filter_cons]
    cases hp : p a with
    | false => rfl
    | true => rfl

theorem map_orderedInsert {α β : Type} (key : α → ℚ) (g : β → α) (b : β) :
    ∀ m : List β,
      List.orderedInsert (fun a b => key b ≤ key a) (g b) (m.map g) =
        (List.orderedInsert (fun x y => key (g y) ≤ key (g x)) b m).map g := by
  intro m
  induction m with
  | nil => rfl
  | cons y ys ih =>
    show List.orderedInsert _ (g b) (g y :: ys.map g) = _
    rw [List.orderedInsert, List.orderedInsert]
    by_cases hc : key (g y) ≤ key (g b)
    · rw [if_pos hc, if_pos hc]
      rfl
    · rw [if_neg hc, if_neg hc, List.map_cons, ih]

theorem map_stable_desc_sort {α β : Type} (key : α → ℚ) (g : β → α) (l : List β) :
    stable_desc_sort key (l.map g) =
      (stable_desc_sort (fun b => key (g b)) l).map g := by
  induction l with
  | nil => rfl
  | cons b l ih =>
    show List.orderedInsert _ (g b) (stable_desc_sort key (l.map g)) = _
    rw [ih]
    exact map_orderedInsert key g b _

theorem orderedInsert_congr_key {α : Type} (key1 key2 : α → ℚ)
    (H : ∀ a b : α, key1 b ≤ key1 a ↔ key2 b ≤ key2 a) (a : α) :
    ∀ l : List α,
      List.orderedInsert (fun x y => key1 y ≤ key1 x) a l =
        List.orderedInsert (fun x y => key2 y ≤ key2 x) a l := by
  intro l
  induction l with
  | nil => rfl
  | cons x xs ih =>
    rw [List.orderedInsert, List.orderedInsert, ih]
    exact if_congr (H a x) rfl rfl

theorem stable_desc_sort_congr_key {α : Type} (key1 key2 : α → ℚ)
    (H : ∀ a b : α, key1 b ≤ key1 a ↔ key2 b ≤ key2 a) (l : List α) :
    stable_desc_sort key1 l = stable_desc_sort key2 l := by
  induction l with
  | nil => rfl
  | cons a l ih =>
    show List.orderedInsert _ a (stable_desc_sort key1 l) = _
    rw [ih, orderedInsert_congr_key key1 key2 H]
    rfl

theorem stable_desc_sort_of_const_key {α : Type} (key : α → ℚ) (c : ℚ) :
    ∀ l : List α, (∀ a ∈ l, key a = c) → stable_desc_sort key l = l := by
  intro l
  induction l with
  | nil => intro _; rfl
  | cons a l ih =>
    intro h
    show List.orderedInsert _ a (stable_desc_sort key l) = _
    rw [ih (fun x hx => h x (List.mem_cons_of_mem a hx))]
    refine orderedInsert_eq_cons key a l (fun y hy => ?_)
    rw [h y (List.mem_cons_of_mem a hy), h a (List.mem_cons_self a l)]

/-! ## C10: reranking is a permutation of the combined inputs -/

/-- C10: for every pair of input lists and every vector weight, the list
returned by `rerank_results` is a permutation of the concatenation of the
(score-annotated) vector and graph results: its length is the sum of the
input lengths, and stripping the annotations recovers exactly the input
records — none dropped, duplicated or invented, regardless of scores. -/
theorem rerank_results_is_permutation (vector_results : List VectorRes)
    (graph_results : List GraphRes) (vector_weight : ℚ) :
    (rerank_results vector_results graph_results vector_weight).Perm
        (vector_results.map (annotVec (maxVectorScore vector_results) vector_weight) ++
          graph_results.map (annotGraph (1 - vector_weight))) ∧
      (rerank_results vector_results graph_results vector_weight).length =
        vector_results.length + graph_results.length ∧
      ((rerank_results vector_results graph_results vector_weight).map stripRanked).Perm
        (vector_results.map Sum.inl ++ graph_results.map Sum.inr) := by
  have hperm :
      (rerank_results vector_results graph_results vector_weight).Perm
        (vector_results.map (annotVec (maxVectorScore vector_results) vector_weight) ++
          graph_results.map (annotGraph (1 - vector_weight))) :=
    stable_desc_sort_perm finalScore _
  refine ⟨hperm, ?_, ?_⟩
  · rw [hperm.length_eq]
    simp
  · have hmap := hperm.map stripRanked
    rw [List.map_append, List.map_map, List.map_map] at hmap
    have h1 : stripRanked ∘ annotVec (maxVectorScore vector_results) vector_weight
        = Sum.inl := by
      funext v
      rfl
    have h2 : stripRanked ∘ annotGraph (1 - vector_weight) = Sum.inr := by
      funext g
      rfl
    rw [h1, h2] at hmap
    exact hmap

/-! ## C2: reranking with vector weight 1 -/

/-- C2 (amended): with `vector_weight = 1`, every graph result receives
`final_score` 0 and the graph results keep their encounter order; the
vector results keep, among themselves, the stable descending order of
their raw scores provided that the batch maximum score is positive
(normalisation then being strictly monotone).  When the maximum score is
not positive — e.g. all scores negative — every vector result is
normalised to 0 instead and encounter order, not score order, is kept
(see the counterexample). -/
theorem rerank_vector_weight_one_order (vector_results : List VectorRes)
    (graph_results : List GraphRes) (h : 0 < maxVectorScore vector_results) :
    (rerank_results vector_results graph_results 1).filter isVecRanked =
        (stable_desc_sort VectorRes.score vector_results).map
          (annotVec (maxVectorScore vector_results) 1) ∧
      (rerank_results vector_results graph_results 1).filter isGrRanked =
        graph_results.map (annotGraph (1 - 1)) ∧
      ∀ r ∈ rerank_results vector_results graph_results 1,
        isGrRanked r = true → finalScore r = 0 := by
  have hgr0 : ∀ g : GraphRes, finalScore (annotGraph (1 - 1) g) = 0 := by
    intro g
    show normalizedGraph g * (1 - 1) = 0
    norm_num
  have hsplit :
      rerank_results vector_results graph_results 1 =
        stable_desc_sort finalScore
          (vector_results.map (annotVec (maxVectorScore vector_results) 1) ++
            graph_results.map (annotGraph (1 - 1))) := rfl
  refine ⟨?_, ?_, ?_⟩
  · rw [hsplit, filter_stable_desc_sort, List.filter_append, List.filter_map,
      List.filter_map]
    have hv : isVecRanked ∘ annotVec (maxVectorScore vector_results) 1
        = fun _ => true := by
      funext v
      rfl
    have hg : isVecRanked ∘ annotGraph (1 - 1) = fun _ => false := by
      funext g
      rfl
    rw [hv, hg, List.filter_true, List.filter_false, List.map_nil, List.append_nil,
      map_stable_desc_sort]
    congr 1
    refine stable_desc_sort_congr_key _ _ (fun a b => ?_) vector_results
    show finalScore (annotVec (maxVectorScore vector_results) 1 b) ≤
        finalScore (annotVec (maxVectorScore vector_results) 1 a) ↔ _
    show normalizedVec (maxVectorScore vector_results) b * 1 ≤
        normalizedVec (maxVectorScore vector_results) a * 1 ↔ _
    rw [mul_one, mul_one, normalizedVec, normalizedVec, if_pos h, if_pos h]
    exact div_le_div_iff_of_pos_right h
  · rw [hsplit, filter_stable_desc_sort, List.filter_append, List.filter_map,
      List.filter_map]
    have hv : isGrRanked ∘ annotVec (maxVectorScore vector_results) 1
        = fun _ => false := by
      funext v
      rfl
    have hg : isGrRanked ∘ annotGraph (1 - 1) = fun _ => true := by
      funext g
      rfl
    rw [hv, hg, List.filter_true, List.filter_false, List.map_nil, List.nil_append]
    exact stable_desc_sort_of_const_key finalScore 0 _ (by
      intro r hr
      rcases List.mem_map.mp hr with ⟨g, _, rfl⟩
      exact hgr0 g)
  · intro r hr hgr
    rw [hsplit] at hr
    have := (stable_desc_sort_perm finalScore _).mem_iff.mp hr
    rcases List.mem_append.mp this with hmem | hmem
    · rcases List.mem_map.mp hmem with ⟨v, _, rfl⟩
      cases hgr
    · rcases List.mem_map.mp hmem with ⟨g, _, rfl⟩
      exact hgr0 g

/-- C2 (witness): a concrete instantiation with positive scores out of
order, and both a path-reached and a direct graph neighbour. -/
theorem rerank_vector_weight_one_order_witness :
    0 < maxVectorScore V2 ∧
      ((rerank_results V2 G2 1).filter isVecRanked =
          (stable_desc_sort VectorRes.score V2).map (annotVec (maxVectorScore V2) 1) ∧
        (rerank_results V2 G2 1).filter isGrRanked = G2.map (annotGraph (1 - 1)) ∧
        ∀ r ∈ rerank_results V2 G2 1, isGrRanked r = true → finalScore r = 0) :=
  ⟨by decide, rerank_vector_weight_one_order V2 G2 (by decide)⟩

/-- C2 (counterexample): when every vector score is negative the batch
maximum is not positive, all normalised scores collapse to 0,
and the ranked order is the encounter order [-2, -1] rather than the
claimed descending score order [-1, -2]. -/
theorem rerank_vector_weight_one_negative_scores_cex :
    (rerank_results [⟨-2, "", 0⟩, ⟨-1, "", 1⟩] [] 1).map stripRanked =
        [Sum.inl ⟨-2, "", 0⟩, Sum.inl ⟨-1, "", 1⟩] ∧
      (rerank_results [⟨-2, "", 0⟩, ⟨-1, "", 1⟩] [] 1).map stripRanked ≠
        [Sum.inl ⟨-1, "", 1⟩, Sum.inl ⟨-2, "", 0⟩] ∧
      ((-2 : ℚ) < -1) := by
  have hid :
      rerank_results [⟨-2, "", 0⟩, ⟨-1, "", 1⟩] [] 1 =
        ([⟨-2, "", 0⟩, ⟨-1, "", 1⟩] : List VectorRes).map
          (annotVec (maxVectorScore [⟨-2, "", 0⟩, ⟨-1, "", 1⟩]) 1) := by
    show stable_desc_sort finalScore
        (([⟨-2, "", 0⟩, ⟨-1, "", 1⟩] : List VectorRes).map
            (annotVec (maxVectorScore [⟨-2, "", 0⟩, ⟨-1, "", 1⟩]) 1) ++
          ([] : List GraphRes).map (annotGraph (1 - 1))) = _
    rw [List.map_nil, List.append_nil]
    refine stable_desc_sort_of_const_key finalScore 0 _ ?_
    intro r hr
    rcases List.mem_map.mp hr with ⟨v, _, rfl⟩
    show normalizedVec (maxVectorScore [⟨-2, "", 0⟩, ⟨-1, "", 1⟩]) v * 1 = 0
    rw [normalizedVec, if_neg (by decide), zero_mul]
  rw [hid]
  have heq : (([⟨-2, "", 0⟩, ⟨-1, "", 1⟩] : List VectorRes).map
        (annotVec (maxVectorScore [⟨-2, "", 0⟩, ⟨-1, "", 1⟩]) 1)).map stripRanked =
      [Sum.inl ⟨-2, "", 0⟩, Sum.inl ⟨-1, "", 1⟩] := rfl
  rw [heq]
  refine ⟨rfl, by decide, by norm_num⟩

/-! ## C1: graph results are bounded by top_k and duplicate-free -/

theorem travInner_invariant (top_k : Nat) :
    ∀ (l : List GraphRes) (seen : List String) (acc : List GraphRes),
      (acc.map GraphRes.id).Nodup → (∀ i ∈ acc.map GraphRes.id, i ∈ seen) →
      ((travInner top_k seen acc l).2.map GraphRes.id).Nodup ∧
        ∀ i ∈ (travInner top_k seen acc l).2.map GraphRes.id,
          i ∈ (travInner top_k seen acc l).1 := by
  intro l
  induction l with
  | nil =>
    intro seen acc h1 h2
    exact ⟨h1, h2⟩
  | cons r rs ih =>
    intro seen acc h1 h2
    by_cases hmem : r.id ∈ seen
    · simp only [travInner, if_pos hmem]
      by_cases hstop : top_k ≤ acc.length
      · simp only [if_pos hstop]
        exact ⟨h1, h2⟩
      · simp only [if_neg hstop]
        exact ih seen acc h1 h2
    · have hnotin : r.id ∉ acc.map GraphRes.id := fun hc => hmem (h2 _ hc)
      have h1' : ((acc ++ [r]).map GraphRes.id).Nodup := by
        rw [List.map_append, List.nodup_append]
        refine ⟨h1, List.nodup_singleton _, ?_⟩
        intro a ha hb
        rcases List.mem_singleton.mp hb with rfl
        exact hnotin ha
      have h2' : ∀ i ∈ (acc ++ [r]).map GraphRes.id, i ∈ r.id :: seen := by
        intro i hi
        rw [List.map_append] at hi
        rcases List.mem_append.mp hi with hi | hi
        · exact List.mem_cons_of_mem _ (h2 i hi)
        · rcases List.mem_singleton.mp hi with rfl
          exact List.mem_cons_self _ _
      simp only [travInner, if_neg hmem]
      by_cases hstop : top_k ≤ (acc ++ [r]).length
      · simp only [if_pos hstop]
        exact ⟨h1', h2'⟩
      · simp only [if_neg hstop]
        exact ih (r.id :: seen) (acc ++ [r]) h1' h2'

theorem travOuter_nodup (S : Stores) (top_k max_hops : Nat) :
    ∀ (names : List String) (seen : List String) (acc : List GraphRes),
      (acc.map GraphRes.id).Nodup → (∀ i ∈ acc.map GraphRes.id, i ∈ seen) →
      ((travOuter S top_k max_hops seen acc names).map GraphRes.id).Nodup := by
  intro names
  induction names with
  | nil =>
    intro seen acc h1 _
    exact h1
  | cons name rest ih =>
    intro seen acc h1 h2
    show ((match resolve_entity S name with
        | none => travOuter S top_k max_hops seen acc rest
        | some e =>
          let p := travInner top_k seen acc (S.get_related_entities e.id max_hops)
          if top_k ≤ p.2.length then p.2
          else travOuter S top_k max_hops p.1 p.2 rest).map GraphRes.id).Nodup
    rcases hres : resolve_entity S name with _ | e
    · exact ih seen acc h1 h2
    · have hinv := travInner_invariant top_k (S.get_related_entities e.id max_hops)
        seen acc h1 h2
      by_cases hstop :
          top_k ≤ (travInner top_k seen acc (S.get_related_entities e.id max_hops)).2.length
      · simp only [hstop, if_true]
        exact hinv.1
      · simp only [hstop, if_false]
        exact ih _ _ hinv.1 hinv.2

theorem graph_traversal_nodup (S : Stores) (entity_names : List String)
    (top_k max_hops : Nat) :
    ((graph_traversal S entity_names top_k max_hops).map GraphRes.id).Nodup := by
  have h := travOuter_nodup S top_k max_hops entity_names [] []
    (by simp) (by simp)
  rw [graph_traversal, List.map_take]
  exact h.sublist (List.take_sublist top_k _)

theorem mergeLoop_nodup (top_k : Nat) :
    ∀ (l : List GraphRes) (ids : List String) (merged : List GraphRes),
      (merged.map GraphRes.id).Nodup → (∀ i ∈ merged.map GraphRes.id, i ∈ ids) →
      ((mergeLoop top_k ids merged l).map GraphRes.id).Nodup := by
  intro l
  induction l with
  | nil =>
    intro ids merged h1 _
    exact h1
  | cons r rs ih =>
    intro ids merged h1 h2
    by_cases hmem : r.id ∈ ids
    · simp only [mergeLoop, if_pos hmem]
      by_cases hstop : top_k ≤ merged.length
      · simp only [if_pos hstop]
        exact h1
      · simp only [if_neg hstop]
        exact ih ids merged h1 h2
    · have hnotin : r.id ∉ merged.map GraphRes.id := fun hc => hmem (h2 _ hc)
      have h1' : ((merged ++ [r]).map GraphRes.id).Nodup := by
        rw [List.map_append, List.nodup_append]
        refine ⟨h1, List.nodup_singleton _, ?_⟩
        intro a ha hb
        rcases List.mem_singleton.mp hb with rfl
        exact hnotin ha
      have h2' : ∀ i ∈ (merged ++ [r]).map GraphRes.id, i ∈ r.id :: ids := by
        intro i hi
        rw [List.map_append] at hi
        rcases List.mem_append.mp hi with hi | hi
        · exact List.mem_cons_of_mem _ (h2 i hi)
        · rcases List.mem_singleton.mp hi with rfl
          exact List.mem_cons_self _ _
      simp only [mergeLoop, if_neg hmem]
      by_cases hstop : top_k ≤ (merged ++ [r]).length
      · simp only [if_pos hstop]
        exact h1'
      · simp only [if_neg hstop]
        exact ih (r.id :: ids) (merged ++ [r]) h1' h2'

theorem expand_nodup (S : Stores) (vector_results : List VectorRes)
    (existing : List GraphRes) (top_k max_hops : Nat)
    (hex : (existing.map GraphRes.id).Nodup) :
    ((expand_from_vector_results S vector_results existing top_k max_hops).map
      GraphRes.id).Nodup := by
  rw [expand_from_vector_results, List.map_take]
  exact (mergeLoop_nodup top_k _ (existing.map GraphRes.id) existing hex
    (fun i hi => hi)).sublist (List.take_sublist top_k _)

/-- C1: for every store response, seed list and parameters, the graph
result lists produced by the retriever — by `_graph_traversal` alone, by
`_expand_from_vector_results` applied to the traversal output as
`retrieve` does, and by the full `retrieve` pipeline — have length at
most `top_k_graph` and contain no two elements with the same id. -/
theorem graph_results_bounded_and_nodup (S : Stores) (entity_names : List String)
    (query : String) (top_k_vector top_k_graph max_hops : Nat) :
    ((graph_traversal S entity_names top_k_graph max_hops).length ≤ top_k_graph ∧
      ((graph_traversal S entity_names top_k_graph max_hops).map GraphRes.id).Nodup) ∧
    ((expand_from_vector_results S (vector_search S query top_k_vector)
          (graph_traversal S entity_names top_k_graph max_hops)
          top_k_graph max_hops).length ≤ top_k_graph ∧
      ((expand_from_vector_results S (vector_search S query top_k_vector)
          (graph_traversal S entity_names top_k_graph max_hops)
          top_k_graph max_hops).map GraphRes.id).Nodup) ∧
    ((retrieve S query top_k_vector top_k_graph max_hops).2.length ≤ top_k_graph ∧
      ((retrieve S query top_k_vector top_k_graph max_hops).2.map GraphRes.id).Nodup) := by
  have htrav : ∀ names : List String,
      (graph_traversal S names top_k_graph max_hops).length ≤ top_k_graph ∧
        ((graph_traversal S names top_k_graph max_hops).map GraphRes.id).Nodup :=
    fun names => ⟨List.length_take_le _ _, graph_traversal_nodup S names _ _⟩
  have hexp : ∀ (vres : List VectorRes) (ex : List GraphRes),
      (ex.map GraphRes.id).Nodup →
      (expand_from_vector_results S vres ex top_k_graph max_hops).length ≤ top_k_graph ∧
        ((expand_from_vector_results S vres ex top_k_graph max_hops).map
          GraphRes.id).Nodup :=
    fun vres ex hex => ⟨List.length_take_le _ _, expand_nodup S vres ex _ _ hex⟩
  refine ⟨htrav entity_names,
    hexp (vector_search S query top_k_vector) _ (htrav entity_names).2, ?_⟩
  have hret : (retrieve S query top_k_vector top_k_graph max_hops).2 =
      (if (graph_traversal S (extract_query_entities S query) top_k_graph
            max_hops).length < top_k_graph / 2
       then expand_from_vector_results S (vector_search S query top_k_vector)
              (graph_traversal S (extract_query_entities S query) top_k_graph max_hops)
              top_k_graph max_hops
       else graph_traversal S (extract_query_entities S query) top_k_graph max_hops) :=
    rfl
  rw [hret]
  by_cases hcond : (graph_traversal S (extract_query_entities S query) top_k_graph
      max_hops).length < top_k_graph / 2
  · rw [if_pos hcond]
    exact hexp _ _ (htrav _).2
  · rw [if_neg hcond]
    exact htrav _

/-! ## C7: extraction failure is never fatal -/

/-- C7: `extract_entities` parses the substring from the first opening
brace to the last closing brace; whenever no such brace pair exists
(first-brace index -1, or last-brace end not beyond it) or the JSON
decode of that substring fails, it returns the empty
entities/relationships structure — it never propagates a failure.  In
particular the response consisting of an empty extraction JSON object
surrounded by prose yields the empty structure without error. -/
theorem extract_entities_failure_returns_empty (response : String)
    (h : py_find response '\x7b' < 0 ∨
        py_rfind_all response '\x7d' + 1 ≤ py_find response '\x7b' ∨
        json_loads (braceSubstring response) = none) :
    extract_entities response = emptyExtraction ∧
      extract_entities "blah \x7b\"entities\":[],\"relationships\":[]\x7d blah" =
        emptyExtraction := by
  constructor
  · have hext : extract_entities response =
        (if 0 ≤ py_find response '\x7b' ∧
            py_find response '\x7b' < py_rfind_all response '\x7d' + 1 then
          match json_loads (py_substring response (py_find response '\x7b')
              (py_rfind_all response '\x7d' + 1)) with
          | some j => j
          | none => emptyExtraction
        else emptyExtraction) := rfl
    rw [hext]
    by_cases hcond : 0 ≤ py_find response '\x7b' ∧
        py_find response '\x7b' < py_rfind_all response '\x7d' + 1
    · rw [if_pos hcond]
      have hnone : json_loads (py_substring response (py_find response '\x7b')
          (py_rfind_all response '\x7d' + 1)) = none := by
        rcases h with h | h | h
        · exact absurd hcond.1 (by omega)
        · exact absurd hcond.2 (by omega)
        · exact h
      rw [hnone]
    · rw [if_neg hcond]
  · rfl

/-- C7 (witness): a response with no braces at all takes the empty-result
branch. -/
theorem extract_entities_failure_returns_empty_witness :
    (py_find "no json here" '\x7b' < 0 ∨
        py_rfind_all "no json here" '\x7d' + 1 ≤ py_find "no json here" '\x7b' ∨
        json_loads (braceSubstring "no json here") = none) ∧
      (extract_entities "no json here" = emptyExtraction ∧
        extract_entities "blah \x7b\"entities\":[],\"relationships\":[]\x7d blah" =
          emptyExtraction) :=
  ⟨Or.inl (by decide),
    extract_entities_failure_returns_empty "no json here" (Or.inl (by decide))⟩

/-! ## C9: non-termination of chunk_text -/

theorem lastIdxGo_of_empty_range (c : Char) (lo hi : Nat) (h : hi ≤ lo) :
    ∀ (s : List Char) (i : Nat) (acc : Int), lastIdxGo c lo hi i s acc = acc := by
  intro s
  induction s with
  | nil =>
    intro i acc
    rfl
  | cons x xs ih =>
    intro i acc
    rw [lastIdxGo, if_neg ?_]
    · exact ih _ _
    · rintro ⟨hh1, hh2, -⟩
      omega

theorem lastIdxGo_of_not_mem (c : Char) (lo hi : Nat) :
    ∀ (s : List Char), (∀ x ∈ s, x ≠ c) →
      ∀ (i : Nat) (acc : Int), lastIdxGo c lo hi i s acc = acc := by
  intro s
  induction s with
  | nil =>
    intro _ i acc
    rfl
  | cons x xs ih =>
    intro hs i acc
    rw [lastIdxGo, if_neg ?_]
    · exact ih (fun y hy => hs y (List.mem_cons_of_mem x hy)) _ _
    · rintro ⟨-, -, rfl⟩
      exact hs x (List.mem_cons_self x xs) rfl

theorem lastIdxGo_append (c : Char) (lo hi : Nat) :
    ∀ (xs ys : List Char) (i : Nat) (acc : Int),
      lastIdxGo c lo hi i (xs ++ ys) acc =
        lastIdxGo c lo hi (i + xs.length) ys (lastIdxGo c lo hi i xs acc) := by
  intro xs
  induction xs with
  | nil =>
    intro ys i acc
    simp [lastIdxGo]
  | cons x xt ih =>
    intro ys i acc
    show lastIdxGo c lo hi (i + 1) (xt ++ ys) _ = _
    rw [ih]
    congr 1
    simp [List.length_cons]
    omega

theorem badText_length : badText.length = 1052 := by
  rw [badText]
  simp

theorem badText_no_newline : ∀ ch ∈ badText, ch ≠ '\n' := by
  intro ch hch
  rw [badText] at hch
  rcases List.mem_append.mp hch with h | h
  · rw [List.eq_of_mem_replicate h]
    decide
  · rcases List.mem_cons.mp h with rfl | h
    · decide
    · rw [List.eq_of_mem_replicate h]
      decide

theorem badText_rfind_newline (i j : Int) : py_rfind badText '\n' i j = -1 :=
  lastIdxGo_of_not_mem '\n' _ _ badText badText_no_newline 0 (-1)

theorem badText_rfind_dot (lo hi : Nat) (h1 : lo ≤ 250) (h2 : 250 < hi) :
    lastIdxGo '.' lo hi 0 badText (-1) = 250 := by
  rw [badText, lastIdxGo_append]
  have hxs : lastIdxGo '.' lo hi 0 (List.replicate 250 'x') (-1) = -1 := by
    refine lastIdxGo_of_not_mem '.' lo hi _ (fun x hx => ?_) 0 (-1)
    rw [List.eq_of_mem_replicate hx]
    decide
  rw [hxs, List.length_replicate]
  show lastIdxGo '.' lo hi ((0 + 250) + 1) (List.replicate 801 'y')
      (if lo ≤ 0 + 250 ∧ 0 + 250 < hi ∧ ('.' : Char) = '.' then ((0 + 250 : Nat) : Int)
       else -1) = 250
  rw [if_pos ⟨by omega, by omega, rfl⟩]
  have hys : lastIdxGo '.' lo hi ((0 + 250) + 1) (List.replicate 801 'y')
      ((0 + 250 : Nat) : Int) = ((0 + 250 : Nat) : Int) := by
    refine lastIdxGo_of_not_mem '.' lo hi _ (fun y hy => ?_) _ _
    rw [List.eq_of_mem_replicate hy]
    decide
  rw [hys]
  norm_num

theorem badText_length_int : ((badText.length : Nat) : Int) = 1052 := by
  rw [badText_length]
  rfl

theorem badText_chunk_end_0 : chunk_end badText 1000 0 = 251 := by
  have hdot : py_rfind badText '.' 0 1000 = 250 := by
    rw [py_rfind, badText_length]
    have hlo : normSliceIdx 1052 0 = 0 := by decide
    have hhi : normSliceIdx 1052 1000 = 1000 := by decide
    rw [hlo, hhi]
    exact badText_rfind_dot 0 1000 (by omega) (by omega)
  have e1 : ((0 : Int) + 1000) = 1000 := by norm_num
  have e2 : min (1000 : Int) 1052 = 1000 := min_eq_left (by norm_num)
  rw [chunk_end, badText_length_int, e1, e2,
    if_pos (by norm_num : (1000 : Int) < 1052), hdot, badText_rfind_newline]
  have e3 : max (250 : Int) (-1) = 250 := max_eq_left (by norm_num)
  dsimp only
  rw [e3, if_pos (by norm_num : (250 : Int) > 0)]
  norm_num

theorem badText_chunk_end_51 : chunk_end badText 1000 51 = 251 := by
  have hdot : py_rfind badText '.' 51 1051 = 250 := by
    rw [py_rfind, badText_length]
    have hlo : normSliceIdx 1052 51 = 51 := by decide
    have hhi : normSliceIdx 1052 1051 = 1051 := by decide
    rw [hlo, hhi]
    exact badText_rfind_dot 51 1051 (by omega) (by omega)
  have e1 : ((51 : Int) + 1000) = 1051 := by norm_num
  have e2 : min (1051 : Int) 1052 = 1051 := min_eq_left (by norm_num)
  rw [chunk_end, badText_length_int, e1, e2,
    if_pos (by norm_num : (1051 : Int) < 1052), hdot, badText_rfind_newline]
  have e3 : max (250 : Int) (-1) = 250 := max_eq_left (by norm_num)
  dsimp only
  rw [e3, if_pos (by norm_num : (250 : Int) > 51)]
  norm_num

theorem badText_next_start_0 : next_start badText 1000 200 0 = 51 := by
  rw [next_start, badText_chunk_end_0, badText_length_int,
    if_pos (by norm_num : (251 : Int) < 1052)]
  norm_num

theorem badText_next_start_51 : next_start badText 1000 200 51 = 51 := by
  rw [next_start, badText_chunk_end_51, badText_length_int,
    if_pos (by norm_num : (251 : Int) < 1052)]
  norm_num

theorem chunk_text_loop_stuck_at_51 :
    ∀ (fuel : Nat) (chunk_num : Nat) (chunks : List Chunk),
      chunk_text_loop badText none 1000 200 fuel 51 chunk_num chunks = none := by
  have h51 : (51 : Int) < (badText.length : Int) := by
    rw [badText_length]
    norm_num
  intro fuel
  induction fuel with
  | zero =>
    intro chunk_num chunks
    rw [chunk_text_loop, if_pos h51]
  | succ n ih =>
    intro chunk_num chunks
    rw [chunk_text_loop, if_pos h51]
    show chunk_text_loop badText none 1000 200 n (next_start badText 1000 200 51) _ _ = none
    rw [badText_next_start_51]
    exact ih _ _

/-- C9 (refuted — divergence witness): on the 1052-character text
`badText`, `chunk_text` with the default configuration (chunk_size 1000,
chunk_overlap 200) never terminates: no iteration budget makes the
sliding-window loop reach `start ≥ len(text)`, because the
sentence-boundary pullback pins the window end at 251 and the next start
at 51 forever. -/
theorem chunk_text_loops_forever (fuel : Nat) :
    chunk_text badText none 1000 200 fuel = none := by
  have h0 : (0 : Int) < (badText.length : Int) := by
    rw [badText_length]
    norm_num
  rw [chunk_text]
  cases fuel with
  | zero => rw [chunk_text_loop, if_pos h0]
  | succ n =>
    rw [chunk_text_loop, if_pos h0]
    show chunk_text_loop badText none 1000 200 n (next_start badText 1000 200 0) _ _ = none
    rw [badText_next_start_0]
    exact chunk_text_loop_stuck_at_51 n _ _

end GraphRAG
